import Mathlib

set_option linter.unusedVariables false

/-! Shallow embedding of the deluge-lint rule engine (`src/index.ts`).
Source text is modelled as `List Char`; lines come from splitting on the
newline character exactly as JavaScript `String.prototype.split('\n')` does.
Regular-expression tests from the source are embedded as executable scans
over the character list. -/

/-- Characters treated as whitespace (JavaScript `\s`, ASCII part, which also
covers `String.prototype.trim` on the ASCII inputs handled here). -/
def isSpaceChar (c : Char) : Bool :=
  c = ' ' || c = '\t' || c = '\n' || c = '\r' || c = Char.ofNat 11 || c = Char.ofNat 12

/-- JavaScript `\w`: ASCII letters, digits and underscore. -/
def isWordChar (c : Char) : Bool :=
  c.isAlpha || c.isDigit || c = '_'

/-- The opening brace character. -/
def openBrace : Char := Char.ofNat 123

/-- The closing brace character. -/
def closeBrace : Char := Char.ofNat 125

/-- JavaScript `code.split('\n')` (line 58 of the source): the list of
newline-separated fields, never empty, with a trailing empty field when the
text ends in a newline. -/
def splitNl : List Char → List (List Char)
  | [] => [[]]
  | c :: rest =>
    if c = '\n' then [] :: splitNl rest
    else
      match splitNl rest with
      | [] => [[c]]
      | l :: ls => (c :: l) :: ls

/-- `String.prototype.trim`, from both ends. -/
def trimChars (l : List Char) : List Char :=
  ((l.dropWhile isSpaceChar).reverse.dropWhile isSpaceChar).reverse

/-- `trimmed.split('//')[0]` (source line 129): the prefix of the list before
the first occurrence of `//`. -/
def beforeDoubleSlash : List Char → List Char
  | [] => []
  | '/' :: '/' :: _ => []
  | c :: rest => c :: beforeDoubleSlash rest

/-- Whether a trimmed line is skipped as a comment (source line 82):
it starts with `//` or `/*`. -/
def isCommentLine : List Char → Bool
  | '/' :: '/' :: _ => true
  | '/' :: '*' :: _ => true
  | _ => false

/-- Word boundary `\b` at the start of the remainder `rest`: end of input or a
non-word character. -/
def kwBoundary : List Char → Bool
  | [] => true
  | c :: _ => !isWordChar c

/-- Match `each\b` at the head of the list. -/
def matchEachBdry : List Char → Bool
  | 'e' :: 'a' :: 'c' :: 'h' :: rest => kwBoundary rest
  | _ => false

/-- After `for`, consume `\s+` (at least one whitespace, flag records whether
one was seen) and then require `each\b`. -/
def spacesThenEach : List Char → Bool → Bool
  | [], _ => false
  | c :: rest, seen =>
    if isSpaceChar c then spacesThenEach rest true
    else seen && matchEachBdry (c :: rest)

/-- Match `for\s+each\b` at the head of the list. -/
def matchForEachAt : List Char → Bool
  | 'f' :: 'o' :: 'r' :: rest => spacesThenEach rest false
  | _ => false

/-- Scan helper for `\bfor\s+each\b`: `prevW` records whether the previous
character was a word character (so that `\b` holds before `for`). -/
def hasForEachAux : Bool → List Char → Bool
  | _, [] => false
  | prevW, c :: rest =>
    (!prevW && matchForEachAt (c :: rest)) || hasForEachAux (isWordChar c) rest

/-- JavaScript `/\bfor\s+each\b/.test(content)` (source line 90). -/
def hasForEach (l : List Char) : Bool := hasForEachAux false l

/-- `content.match(/[{}]/g)` (source line 97): the line's brace characters in
order. -/
def lineBraces (l : List Char) : List Char :=
  l.filter (fun c => c = openBrace || c = closeBrace)

/-- One step of the brace scan (source lines 99-108). The state is
`(braceStack, expectingLoopBrace)`: an opening brace pushes a frame tagged
with the pending-loop flag and clears the flag; a closing brace pops the top
frame, a no-op when the stack is empty (`Array.prototype.pop`). -/
def procBrace (st : List Bool × Bool) (c : Char) : List Bool × Bool :=
  if c = openBrace then (st.1 ++ [st.2], false)
  else if c = closeBrace then (st.1.dropLast, st.2)
  else st

/-- State update of one non-comment line (source lines 88-109): the
`for each` keyword test sets the pending-loop flag, then the line's braces are
processed left to right. -/
def lineUpdateCore (st : List Bool × Bool) (content : List Char) : List Bool × Bool :=
  let st1 := if hasForEach content then (st.1, true) else st
  (lineBraces content).foldl procBrace st1

/-- State update of one line: comment lines leave the state untouched
(source line 82), other lines go through `lineUpdateCore`. -/
def lineUpdate (st : List Bool × Bool) (content : List Char) : List Bool × Bool :=
  if isCommentLine (trimChars content) then st else lineUpdateCore st content

/-- JavaScript `/\d{18,20}/.test(content)` (source line 116): the counter
tracks the current run of consecutive digits; the test succeeds as soon as a
run reaches 18. -/
def digitRunFrom : Nat → List Char → Bool
  | cnt, [] => decide (18 ≤ cnt)
  | cnt, c :: rest =>
    if c.isDigit then decide (18 ≤ cnt + 1) || digitRunFrom (cnt + 1) rest
    else digitRunFrom 0 rest

/-- The line contains a run of at least 18 consecutive digits. -/
def has18Digits (l : List Char) : Bool := digitRunFrom 0 l

/-- JavaScript `content.match(/^\s*([a-zA-Z0-9_]+)\s*=/)` (source line 152):
leading whitespace, a nonempty run of word characters (the captured variable
name), optional whitespace, then `=`. -/
def assignMatch (l : List Char) : Option (List Char) :=
  let afterSp := l.dropWhile isSpaceChar
  let name := afterSp.takeWhile isWordChar
  let rest2 := (afterSp.dropWhile isWordChar).dropWhile isSpaceChar
  if name.isEmpty then none
  else if rest2.head? = some '=' then some name else none

/-- JavaScript `/^[a-z][a-zA-Z0-9]*$/.test(name)` (source line 155). -/
def isCamelName : List Char → Bool
  | [] => false
  | c :: rest => c.isLower && rest.all Char.isAlphanum

/-- JavaScript `/^(if|else|for|while)\b/.test(codePart)` (source line 138). -/
def startsCtrlKeyword (l : List Char) : Bool :=
  (match l with | 'i' :: 'f' :: r => kwBoundary r | _ => false) ||
  (match l with | 'e' :: 'l' :: 's' :: 'e' :: r => kwBoundary r | _ => false) ||
  (match l with | 'f' :: 'o' :: 'r' :: r => kwBoundary r | _ => false) ||
  (match l with | 'w' :: 'h' :: 'i' :: 'l' :: 'e' :: r => kwBoundary r | _ => false)

/-- `\s*\(` at the head of the list. -/
def parenAfter (l : List Char) : Bool :=
  (l.dropWhile isSpaceChar).head? = some '('

/-- Match `(zoho\.[a-zA-Z0-9_]+\.[a-zA-Z0-9_]+|invokeurl)\s*\(` at the head
of the list (source line 176). -/
def timeoutCallAt (l : List Char) : Bool :=
  (match l with
   | 'z' :: 'o' :: 'h' :: 'o' :: '.' :: rest =>
     let seg1 := rest.takeWhile isWordChar
     let r2 := rest.dropWhile isWordChar
     !seg1.isEmpty &&
       (match r2 with
        | '.' :: r3 =>
          let seg2 := r3.takeWhile isWordChar
          !seg2.isEmpty && parenAfter (r3.dropWhile isWordChar)
        | _ => false)
   | _ => false) ||
  (match l with
   | 'i' :: 'n' :: 'v' :: 'o' :: 'k' :: 'e' :: 'u' :: 'r' :: 'l' :: rest => parenAfter rest
   | _ => false)

/-- Try a pattern at every start position, as `RegExp.prototype.test` does. -/
def anyTail (p : List Char → Bool) : List Char → Bool
  | [] => p []
  | c :: rest => p (c :: rest) || anyTail p rest

/-- The risky-API-call regex test over the whole line. -/
def hasTimeoutCall (l : List Char) : Bool := anyTail timeoutCallAt l

/-- Value stored under the `max-lines-per-function` rule key: in the loose
configuration object it is either a number or a string (such as `"off"`). -/
inductive MLVal where
  | num (n : Int)
  | str (s : String)
deriving DecidableEq

/-- The `rules` object of a configuration, one optional entry per known rule
key (`DelugeConfig.rules` in the source); an absent key is `none`. -/
structure Rules where
  noHardcodedIds : Option String := none
  requireSemicolon : Option String := none
  camelcaseVars : Option String := none
  maxLinesPerFunction : Option MLVal := none
  noUnusedMaps : Option String := none
  enforceTimeoutAwareness : Option String := none
deriving DecidableEq

/-- The configuration consumed by the engine (`DelugeConfig` in the source;
`exclude` and `env` are never read by `analyzeDeluge` and are omitted). -/
structure DelugeConfig where
  rules : Rules
deriving DecidableEq

/-- The rules of `defaultConfig` (source lines 21-35). -/
def defaultRules : Rules :=
  { noHardcodedIds := some "warn"
    requireSemicolon := some "error"
    camelcaseVars := some "warn"
    maxLinesPerFunction := some (MLVal.str "off")
    noUnusedMaps := some "warn"
    enforceTimeoutAwareness := some "warn" }

/-- `defaultConfig` from the source. -/
def defaultConfig : DelugeConfig := ⟨defaultRules⟩

/-- Diagnostic severity (`LintError.type` in the source). -/
inductive Sev where
  | warning
  | error
deriving DecidableEq

/-- One diagnostic (`LintError` in the source). -/
structure LintError where
  line : Nat
  message : String
  type : Sev
  ruleId : Option String
deriving DecidableEq

/-- JavaScript `v || d` on an optional string configuration value: an absent
key or an empty (falsy) string falls back to the default. -/
def orDefault (v : Option String) (d : String) : String :=
  match v with
  | none => d
  | some s => if s = "" then d else s

/-- `config.rules['no-hardcoded-ids'] || 'warn'` (source line 114). -/
def getHardcodedRule (r : Rules) : String := orDefault r.noHardcodedIds "warn"

/-- `config.rules['require-semicolon'] || 'error'` (source line 127). -/
def getSemicolonRule (r : Rules) : String := orDefault r.requireSemicolon "error"

/-- `config.rules['camelcase-vars'] || 'warn'` (source line 150). -/
def getCamelRule (r : Rules) : String := orDefault r.camelcaseVars "warn"

/-- `config.rules['enforce-timeout-awareness'] || 'warn'` (source line 167). -/
def getTimeoutRule (r : Rules) : String := orDefault r.enforceTimeoutAwareness "warn"

/-- `rule === 'error' ? 'error' : 'warning'`. -/
def sevOf (rule : String) : Sev :=
  if rule = "error" then Sev.error else Sev.warning

/-- ASCII apostrophe, used in the camelCase message text. -/
def apos : String := (Char.ofNat 39).toString

/-- Rule 1, `no-hardcoded-ids` (source lines 113-124). -/
def hardcodedCheck (rules : Rules) (lineNumber : Nat) (content : List Char) : List LintError :=
  let rule := getHardcodedRule rules
  if rule ≠ "off" ∧ has18Digits content then
    [⟨lineNumber, "Avoid using hardcoded IDs. Use configuration variables.",
      sevOf rule, some "no-hardcoded-ids"⟩]
  else []

/-- Rule 2, `require-semicolon` (source lines 126-147). -/
def semicolonCheck (rules : Rules) (lineNumber : Nat) (trimmed : List Char) : List LintError :=
  let rule := getSemicolonRule rules
  let codePart := trimChars (beforeDoubleSlash trimmed)
  if rule ≠ "off" ∧ codePart ≠ [] ∧
      codePart.getLast? ≠ some ';' ∧ codePart.getLast? ≠ some openBrace ∧
      codePart.getLast? ≠ some closeBrace ∧ codePart.getLast? ≠ some ':' ∧
      ¬ startsCtrlKeyword codePart then
    [⟨lineNumber, "Missing semicolon at the end of the line.",
      sevOf rule, some "require-semicolon"⟩]
  else []

/-- Rule 3, `camelcase-vars` (source lines 149-164). -/
def camelcaseCheck (rules : Rules) (lineNumber : Nat) (content : List Char) : List LintError :=
  let rule := getCamelRule rules
  if rule ≠ "off" then
    match assignMatch content with
    | some name =>
      if ¬ isCamelName name then
        [⟨lineNumber, "Variable " ++ apos ++ String.mk name ++ apos ++
            " should be in camelCase.", sevOf rule, some "camelcase-vars"⟩]
      else []
    | none => []
  else []

/-- Rule 4, `enforce-timeout-awareness` (source lines 166-187): fires when any
frame on the brace stack is a loop and the line matches the API-call pattern. -/
def timeoutCheck (rules : Rules) (braceStack : List Bool) (lineNumber : Nat)
    (content : List Char) : List LintError :=
  let rule := getTimeoutRule rules
  if rule ≠ "off" ∧ braceStack.any (fun b => b) ∧ hasTimeoutCall content then
    [⟨lineNumber,
      "Avoid using API calls (zoho.*, invokeurl) inside loops. This may cause \"Time limit exceeded\" errors.",
      sevOf rule, some "enforce-timeout-awareness"⟩]
  else []

/-- The four per-line evaluators, in source order, against the brace stack as
updated by the current line. -/
def checkLine (rules : Rules) (braceStack : List Bool) (lineNumber : Nat)
    (content : List Char) : List LintError :=
  hardcodedCheck rules lineNumber content ++
  semicolonCheck rules lineNumber (trimChars content) ++
  camelcaseCheck rules lineNumber content ++
  timeoutCheck rules braceStack lineNumber content

/-- The line loop of `analyzeDeluge` (source lines 77-188): comment lines are
skipped entirely; other lines first update the scope state, then run the four
evaluators. -/
def scanLines (rules : Rules) : List (List Char) → Nat → List Bool × Bool → List LintError
  | [], _, _ => []
  | content :: rest, idx, st =>
    if isCommentLine (trimChars content) then
      scanLines rules rest (idx + 1) st
    else
      checkLine rules (lineUpdateCore st content).1 (idx + 1) content ++
        scanLines rules rest (idx + 1) (lineUpdateCore st content)

/-- The `max-lines-per-function` message (source line 66). -/
def maxLinesMsg (numLines : Nat) (n : Int) : String :=
  "Function length (" ++ toString numLines ++ ") exceeds the maximum of " ++
    toString n ++ " lines."

/-- The whole-file `max-lines-per-function` check (source lines 61-70): only a
numeric configured value enables it (`typeof maxLinesRule === 'number'`), and
it fires when the total line count exceeds the threshold. -/
def maxLinesBlock (numLines : Nat) (v : Option MLVal) : List LintError :=
  match v with
  | some (MLVal.num n) =>
    if (numLines : Int) > n then
      [⟨1, maxLinesMsg numLines n, Sev.warning, some "max-lines-per-function"⟩]
    else []
  | _ => []

/-- `analyzeDeluge` (source lines 54-191). -/
def analyzeDeluge (code : List Char) (config : DelugeConfig) : List LintError :=
  let lines := splitNl code
  maxLinesBlock lines.length config.rules.maxLinesPerFunction ++
    scanLines config.rules lines 0 ([], false)

/-! ## Scope-tracker lemmas -/

/-- Specification-level depth step: an opening brace increments the count of
unmatched opening braces, a closing brace decrements it, truncated at zero. -/
def depthStep (d : Nat) (c : Char) : Nat :=
  if c = openBrace then d + 1 else if c = closeBrace then d - 1 else d

/-- The lines that are not skipped as comments. -/
def nonCommentLines (lines : List (List Char)) : List (List Char) :=
  lines.filter (fun l => !isCommentLine (trimChars l))

/-- All brace characters scanned on non-comment lines, in scan order. -/
def scannedBraces (lines : List (List Char)) : List Char :=
  ((nonCommentLines lines).map lineBraces).flatten

theorem length_procBrace (st : List Bool × Bool) (c : Char) :
    ((procBrace st c).1).length = depthStep st.1.length c := by
  unfold procBrace depthStep
  split_ifs <;> simp [List.length_dropLast]

theorem length_foldl_procBrace (bs : List Char) :
    ∀ st : List Bool × Bool,
      ((bs.foldl procBrace st).1).length = bs.foldl depthStep st.1.length := by
  induction bs with
  | nil => intro st; rfl
  | cons c bs ih =>
    intro st
    simp only [List.foldl_cons]
    rw [ih (procBrace st c), length_procBrace]

theorem length_lineUpdateCore (st : List Bool × Bool) (content : List Char) :
    ((lineUpdateCore st content).1).length
      = (lineBraces content).foldl depthStep st.1.length := by
  unfold lineUpdateCore
  rw [length_foldl_procBrace]
  congr 1
  split <;> rfl

theorem length_foldl_lineUpdate (lines : List (List Char)) :
    ∀ st : List Bool × Bool,
      ((lines.foldl lineUpdate st).1).length
        = (scannedBraces lines).foldl depthStep st.1.length := by
  induction lines with
  | nil => intro st; rfl
  | cons l ls ih =>
    intro st
    simp only [List.foldl_cons]
    rw [ih (lineUpdate st l)]
    unfold lineUpdate
    by_cases h : isCommentLine (trimChars l)
    · simp [scannedBraces, nonCommentLines, h]
    · simp only [h, if_neg, Bool.false_eq_true, ite_false]
      rw [length_lineUpdateCore]
      simp [scannedBraces, nonCommentLines, h, List.foldl_append]

/-- Claim C1: for the four-line loop input, the call line (line 3) produces
exactly one warning diagnostic with ruleId `enforce-timeout-awareness` (and it
is the only diagnostic of the whole input); the same call line without the
surrounding loop produces no `enforce-timeout-awareness` diagnostic. -/
theorem claim_C1 :
    (analyzeDeluge ("for each r in records\n\x7b\n    zoho.crm.getRecords();\n\x7d".data)
        defaultConfig).map (fun d => (d.line, d.type, d.ruleId)) =
      [(3, Sev.warning, some "enforce-timeout-awareness")] ∧
    (analyzeDeluge ("    zoho.crm.getRecords();".data) defaultConfig).filter
        (fun d => d.ruleId = some "enforce-timeout-awareness") = [] := by
  exact ⟨by decide, by decide⟩

/-- Claim C2: the scan is total (it always returns a list); after any number
of scanned lines the scope-stack depth equals the truncated count of unmatched
opening braces over the braces of the non-comment lines scanned so far (in
particular it is never negative); a closing brace scanned on an empty stack is
a no-op; and a frame that has been pushed and popped again leaves the stack —
and hence the `isInsideLoop` query — exactly as it was. -/
theorem claim_C2 (code : List Char) (cfg : DelugeConfig) (k : Nat)
    (s : List Bool) (e : Bool) :
    (∃ result, analyzeDeluge code cfg = result) ∧
    ((((splitNl code).take k).foldl lineUpdate ([], false)).1).length
      = (scannedBraces ((splitNl code).take k)).foldl depthStep 0 ∧
    procBrace ([], e) closeBrace = ([], e) ∧
    (List.foldl procBrace (s, e) [openBrace, closeBrace]).1 = s := by
  refine ⟨⟨_, rfl⟩, ?_, ?_, ?_⟩
  · simpa using length_foldl_lineUpdate ((splitNl code).take k) ([], false)
  · simp [procBrace, openBrace, closeBrace]
  · simp [procBrace, openBrace, closeBrace]

/-! ## Pending-loop flag lemmas -/

theorem pending_preserved (pre : List Char) :
    ∀ st : List Bool × Bool, openBrace ∉ pre →
      ((pre.foldl procBrace st).2) = st.2 := by
  induction pre with
  | nil => intro st _; rfl
  | cons c cs ih =>
    intro st h
    rw [List.mem_cons, not_or] at h
    simp only [List.foldl_cons]
    rw [ih (procBrace st c) h.2]
    unfold procBrace
    split_ifs with h1 h2
    · exact absurd h1.symm h.1
    · rfl
    · rfl

theorem pending_false_foldl (bs : List Char) :
    ∀ st : List Bool × Bool, st.2 = false → ((bs.foldl procBrace st).2) = false := by
  induction bs with
  | nil => intro st h; exact h
  | cons c cs ih =>
    intro st h
    simp only [List.foldl_cons]
    refine ih (procBrace st c) ?_
    unfold procBrace
    split_ifs <;> simp [h]

theorem true_mem_foldl_false (bs : List Char) :
    ∀ st : List Bool × Bool, st.2 = false →
      true ∈ ((bs.foldl procBrace st).1) → true ∈ st.1 := by
  induction bs with
  | nil => intro st _ h; exact h
  | cons c cs ih =>
    intro st hp h
    simp only [List.foldl_cons] at h
    unfold procBrace at h
    split_ifs at h with h1 h2
    · have := ih (st.1 ++ [st.2], false) rfl h
      rw [hp] at this
      rcases List.mem_append.mp this with h3 | h3
      · exact h3
      · simp at h3
    · have := ih (st.1.dropLast, st.2) hp h
      exact (List.dropLast_sublist st.1).mem this
    · exact ih st hp h

theorem procBrace_open (st : List Bool × Bool) :
    procBrace st openBrace = (st.1 ++ [st.2], false) := by
  simp [procBrace]

theorem foldl_pre_open (s : List Bool) (pre post : List Char)
    (h : openBrace ∉ pre) :
    List.foldl procBrace (s, true) (pre ++ openBrace :: post)
      = List.foldl procBrace
          ((List.foldl procBrace (s, true) pre).1 ++ [true], false) post := by
  rw [List.foldl_append]
  simp only [List.foldl_cons]
  congr 1
  rw [procBrace_open, pending_preserved pre (s, true) h]

/-- Claim C3: with the pending-loop flag set, scanning any run of characters
free of opening braces keeps the flag set; the first opening brace then pushes
a frame tagged `true` and clears the flag; from a cleared flag the brace scan
never sets it again and every frame it pushes is tagged `false`, so a `true`
frame on the stack can only come from before the flag was cleared; and the
one-line `for each x in list {` input reaches exactly the same scope state as
its two-line form. -/
theorem claim_C3 (s : List Bool) (pre post : List Char) (h : openBrace ∉ pre) :
    ((List.foldl procBrace (s, true) pre).2 = true) ∧
    (List.foldl procBrace (s, true) (pre ++ openBrace :: post)
      = List.foldl procBrace
          ((List.foldl procBrace (s, true) pre).1 ++ [true], false) post) ∧
    (∀ (t : List Bool) (bs : List Char),
      (List.foldl procBrace (t, false) bs).2 = false) ∧
    (∀ (t : List Bool) (bs : List Char),
      true ∈ (List.foldl procBrace (t, false) bs).1 → true ∈ t) ∧
    (List.foldl lineUpdate (([] : List Bool), false)
        (splitNl ("for each x in list \x7b".data))
      = List.foldl lineUpdate ([], false)
          (splitNl ("for each x in list\n\x7b".data))) := by
  refine ⟨pending_preserved pre (s, true) h, foldl_pre_open s pre post h,
    fun t bs => pending_false_foldl bs (t, false) rfl,
    fun t bs hm => true_mem_foldl_false bs (t, false) rfl hm, by decide⟩

theorem claim_C3_witness :
    (openBrace ∉ ([] : List Char)) ∧
    (List.foldl procBrace (([] : List Bool), true) ([] ++ openBrace :: [])
      = List.foldl procBrace
          ((List.foldl procBrace (([] : List Bool), true) []).1 ++ [true], false) []) :=
  ⟨by decide, (claim_C3 [] [] [] (by decide)).2.1⟩

/-! ## Diagnostic ordering -/

/-- Position of a diagnostic's rule in the emission order of one line:
the whole-file check first, then the four per-line evaluators in source
order; unknown rule ids map to 5. -/
def ruleKey (d : LintError) : Nat :=
  if d.ruleId = some "max-lines-per-function" then 0
  else if d.ruleId = some "no-hardcoded-ids" then 1
  else if d.ruleId = some "require-semicolon" then 2
  else if d.ruleId = some "camelcase-vars" then 3
  else if d.ruleId = some "enforce-timeout-awareness" then 4
  else 5

/-- The order in which `analyzeDeluge` emits diagnostics: ascending line
number, and inside one line the fixed evaluator order. -/
def diagOrder (a b : LintError) : Prop :=
  a.line < b.line ∨ (a.line = b.line ∧ ruleKey a < ruleKey b)

theorem mem_if_singleton {P : Prop} [Decidable P] {x d : LintError}
    (h : d ∈ if P then [x] else []) : d = x ∧ P := by
  split at h
  · exact ⟨List.mem_singleton.mp h, by assumption⟩
  · exact absurd h (List.not_mem_nil d)

theorem mem_hardcodedCheck {r : Rules} {n : Nat} {c : List Char} {d : LintError}
    (h : d ∈ hardcodedCheck r n c) :
    d.line = n ∧ d.ruleId = some "no-hardcoded-ids" := by
  simp only [hardcodedCheck] at h
  obtain ⟨rfl, -⟩ := mem_if_singleton h
  exact ⟨rfl, rfl⟩

theorem mem_semicolonCheck {r : Rules} {n : Nat} {c : List Char} {d : LintError}
    (h : d ∈ semicolonCheck r n c) :
    d.line = n ∧ d.ruleId = some "require-semicolon" := by
  simp only [semicolonCheck] at h
  obtain ⟨rfl, -⟩ := mem_if_singleton h
  exact ⟨rfl, rfl⟩

theorem mem_camelcaseCheck {r : Rules} {n : Nat} {c : List Char} {d : LintError}
    (h : d ∈ camelcaseCheck r n c) :
    d.line = n ∧ d.ruleId = some "camelcase-vars" := by
  simp only [camelcaseCheck] at h
  split at h
  · split at h
    · obtain ⟨rfl, -⟩ := mem_if_singleton h
      exact ⟨rfl, rfl⟩
    · exact absurd h (List.not_mem_nil d)
  · exact absurd h (List.not_mem_nil d)

theorem mem_timeoutCheck {r : Rules} {s : List Bool} {n : Nat} {c : List Char}
    {d : LintError} (h : d ∈ timeoutCheck r s n c) :
    d.line = n ∧ d.ruleId = some "enforce-timeout-awareness" := by
  simp only [timeoutCheck] at h
  obtain ⟨rfl, -⟩ := mem_if_singleton h
  exact ⟨rfl, rfl⟩

theorem mem_maxLinesBlock {L : Nat} {v : Option MLVal} {d : LintError}
    (h : d ∈ maxLinesBlock L v) :
    d.line = 1 ∧ d.type = Sev.warning ∧ d.ruleId = some "max-lines-per-function" := by
  unfold maxLinesBlock at h
  split at h
  · split at h
    · obtain rfl := List.mem_singleton.mp h
      exact ⟨rfl, rfl, rfl⟩
    · exact absurd h (List.not_mem_nil d)
  · exact absurd h (List.not_mem_nil d)

theorem ruleKey_of_hardcoded {d : LintError}
    (h : d.ruleId = some "no-hardcoded-ids") : ruleKey d = 1 := by
  unfold ruleKey; rw [h]; decide

theorem ruleKey_of_semicolon {d : LintError}
    (h : d.ruleId = some "require-semicolon") : ruleKey d = 2 := by
  unfold ruleKey; rw [h]; decide

theorem ruleKey_of_camelcase {d : LintError}
    (h : d.ruleId = some "camelcase-vars") : ruleKey d = 3 := by
  unfold ruleKey; rw [h]; decide

theorem ruleKey_of_timeout {d : LintError}
    (h : d.ruleId = some "enforce-timeout-awareness") : ruleKey d = 4 := by
  unfold ruleKey; rw [h]; decide

theorem ruleKey_of_maxlines {d : LintError}
    (h : d.ruleId = some "max-lines-per-function") : ruleKey d = 0 := by
  unfold ruleKey; rw [h]; decide

/-- Decompose membership in the concatenation of the four per-line blocks. -/
theorem mem_checkLine_cases {r : Rules} {s : List Bool} {n : Nat} {c : List Char}
    {d : LintError} (h : d ∈ checkLine r s n c) :
    d ∈ hardcodedCheck r n c ∨ d ∈ semicolonCheck r n (trimChars c) ∨
    d ∈ camelcaseCheck r n c ∨ d ∈ timeoutCheck r s n c := by
  unfold checkLine at h
  rcases List.mem_append.mp h with h1 | h1
  · rcases List.mem_append.mp h1 with h2 | h2
    · rcases List.mem_append.mp h2 with h3 | h3
      · exact Or.inl h3
      · exact Or.inr (Or.inl h3)
    · exact Or.inr (Or.inr (Or.inl h2))
  · exact Or.inr (Or.inr (Or.inr h1))

theorem mem_checkLine {r : Rules} {s : List Bool} {n : Nat} {c : List Char}
    {d : LintError} (h : d ∈ checkLine r s n c) :
    d.line = n ∧ 1 ≤ ruleKey d ∧ ruleKey d ≤ 4 := by
  rcases mem_checkLine_cases h with h1 | h1 | h1 | h1
  · obtain ⟨hl, hr⟩ := mem_hardcodedCheck h1
    rw [ruleKey_of_hardcoded hr]
    exact ⟨hl, by omega, by omega⟩
  · obtain ⟨hl, hr⟩ := mem_semicolonCheck h1
    rw [ruleKey_of_semicolon hr]
    exact ⟨hl, by omega, by omega⟩
  · obtain ⟨hl, hr⟩ := mem_camelcaseCheck h1
    rw [ruleKey_of_camelcase hr]
    exact ⟨hl, by omega, by omega⟩
  · obtain ⟨hl, hr⟩ := mem_timeoutCheck h1
    rw [ruleKey_of_timeout hr]
    exact ⟨hl, by omega, by omega⟩

theorem pairwise_hardcodedCheck {r : Rules} {n : Nat} {c : List Char} :
    List.Pairwise diagOrder (hardcodedCheck r n c) := by
  simp only [hardcodedCheck]
  split <;> simp

theorem pairwise_semicolonCheck {r : Rules} {n : Nat} {c : List Char} :
    List.Pairwise diagOrder (semicolonCheck r n c) := by
  simp only [semicolonCheck]
  split <;> simp

theorem pairwise_camelcaseCheck {r : Rules} {n : Nat} {c : List Char} :
    List.Pairwise diagOrder (camelcaseCheck r n c) := by
  simp only [camelcaseCheck]
  split
  · split
    · split <;> simp
    · simp
  · simp

theorem pairwise_timeoutCheck {r : Rules} {s : List Bool} {n : Nat} {c : List Char} :
    List.Pairwise diagOrder (timeoutCheck r s n c) := by
  simp only [timeoutCheck]
  split <;> simp

theorem pairwise_checkLine (r : Rules) (s : List Bool) (n : Nat) (c : List Char) :
    List.Pairwise diagOrder (checkLine r s n c) := by
  unfold checkLine
  rw [List.pairwise_append, List.pairwise_append, List.pairwise_append]
  refine ⟨⟨⟨pairwise_hardcodedCheck, pairwise_semicolonCheck, ?_⟩,
    pairwise_camelcaseCheck, ?_⟩, pairwise_timeoutCheck, ?_⟩
  · intro a ha b hb
    obtain ⟨hla, hra⟩ := mem_hardcodedCheck ha
    obtain ⟨hlb, hrb⟩ := mem_semicolonCheck hb
    exact Or.inr ⟨hla.trans hlb.symm,
      by rw [ruleKey_of_hardcoded hra, ruleKey_of_semicolon hrb]; omega⟩
  · intro a ha b hb
    obtain ⟨hlb, hrb⟩ := mem_camelcaseCheck hb
    rcases List.mem_append.mp ha with ha1 | ha1
    · obtain ⟨hla, hra⟩ := mem_hardcodedCheck ha1
      exact Or.inr ⟨hla.trans hlb.symm,
        by rw [ruleKey_of_hardcoded hra, ruleKey_of_camelcase hrb]; omega⟩
    · obtain ⟨hla, hra⟩ := mem_semicolonCheck ha1
      exact Or.inr ⟨hla.trans hlb.symm,
        by rw [ruleKey_of_semicolon hra, ruleKey_of_camelcase hrb]; omega⟩
  · intro a ha b hb
    obtain ⟨hlb, hrb⟩ := mem_timeoutCheck hb
    have hkb := ruleKey_of_timeout hrb
    rcases List.mem_append.mp ha with ha1 | ha1
    · rcases List.mem_append.mp ha1 with ha2 | ha2
      · obtain ⟨hla, hra⟩ := mem_hardcodedCheck ha2
        exact Or.inr ⟨hla.trans hlb.symm, by rw [ruleKey_of_hardcoded hra, hkb]; omega⟩
      · obtain ⟨hla, hra⟩ := mem_semicolonCheck ha2
        exact Or.inr ⟨hla.trans hlb.symm, by rw [ruleKey_of_semicolon hra, hkb]; omega⟩
    · obtain ⟨hla, hra⟩ := mem_camelcaseCheck ha1
      exact Or.inr ⟨hla.trans hlb.symm, by rw [ruleKey_of_camelcase hra, hkb]; omega⟩

theorem mem_scanLines {r : Rules} :
    ∀ {ls : List (List Char)} {idx : Nat} {st : List Bool × Bool} {d : LintError},
      d ∈ scanLines r ls idx st → idx + 1 ≤ d.line ∧ 1 ≤ ruleKey d ∧ ruleKey d ≤ 4 := by
  intro ls
  induction ls with
  | nil => intro idx st d h; exact absurd h (List.not_mem_nil d)
  | cons l rest ih =>
    intro idx st d h
    unfold scanLines at h
    split at h
    · obtain ⟨h1, h2⟩ := ih h
      exact ⟨by omega, h2⟩
    · rcases List.mem_append.mp h with h1 | h1
      · obtain ⟨hl, hk⟩ := mem_checkLine h1
        exact ⟨by omega, hk⟩
      · obtain ⟨h2, h3⟩ := ih h1
        exact ⟨by omega, h3⟩

theorem pairwise_scanLines (r : Rules) :
    ∀ (ls : List (List Char)) (idx : Nat) (st : List Bool × Bool),
      List.Pairwise diagOrder (scanLines r ls idx st) := by
  intro ls
  induction ls with
  | nil => intro idx st; exact List.Pairwise.nil
  | cons l rest ih =>
    intro idx st
    unfold scanLines
    split
    · exact ih (idx + 1) st
    · rw [List.pairwise_append]
      refine ⟨pairwise_checkLine r _ (idx + 1) l, ih (idx + 1) _, ?_⟩
      intro a ha b hb
      obtain ⟨hla, -⟩ := mem_checkLine ha
      obtain ⟨hlb, -⟩ := mem_scanLines hb
      exact Or.inl (by omega)

theorem pairwise_maxLinesBlock (L : Nat) (v : Option MLVal) :
    List.Pairwise diagOrder (maxLinesBlock L v) := by
  unfold maxLinesBlock
  split
  · split <;> simp
  · exact List.Pairwise.nil

/-- Claim C4: the list returned by `analyzeDeluge` is emitted in ascending
line order, and diagnostics of one line appear in the fixed evaluator order
(whole-file check, hardcoded-ids, semicolon, camelcase, timeout-awareness). -/
theorem claim_C4 (code : List Char) (cfg : DelugeConfig) :
    List.Pairwise diagOrder (analyzeDeluge code cfg) := by
  unfold analyzeDeluge
  rw [List.pairwise_append]
  refine ⟨pairwise_maxLinesBlock _ _, pairwise_scanLines _ _ 0 _, ?_⟩
  intro a ha b hb
  obtain ⟨hla, -, hra⟩ := mem_maxLinesBlock ha
  obtain ⟨hlb, hkb, -⟩ := mem_scanLines hb
  rcases Nat.lt_or_ge 1 b.line with h1 | h1
  · exact Or.inl (by omega)
  · exact Or.inr ⟨by omega, by rw [ruleKey_of_maxlines hra]; omega⟩

/-! ## Line-splitting lemmas -/

theorem splitNl_ne_nil : ∀ l : List Char, splitNl l ≠ [] := by
  intro l
  cases l with
  | nil => simp [splitNl]
  | cons c rest =>
    unfold splitNl
    split
    · simp
    · split <;> simp

theorem splitNl_append_newline : ∀ l : List Char, splitNl (l ++ ['\n']) = splitNl l ++ [[]] := by
  intro l
  induction l with
  | nil => rfl
  | cons c cs ih =>
    show splitNl (c :: (cs ++ ['\n'])) = splitNl (c :: cs) ++ [[]]
    unfold splitNl
    by_cases hc : c = '\n'
    · rw [if_pos hc, if_pos hc, ih]
      rfl
    · rw [if_neg hc, if_neg hc, ih]
      obtain ⟨a, as, has⟩ := List.exists_cons_of_ne_nil (splitNl_ne_nil cs)
      rw [has]
      rfl

theorem splitNl_no_newline : ∀ l : List Char, '\n' ∉ l → splitNl l = [l] := by
  intro l
  induction l with
  | nil => intro _; rfl
  | cons c cs ih =>
    intro h
    rw [List.mem_cons, not_or] at h
    unfold splitNl
    rw [if_neg (fun he => h.1 he.symm), ih h.2]

/-! ## Filtering by rule id -/

theorem mem_scanLines_cases {r : Rules} :
    ∀ {ls : List (List Char)} {idx : Nat} {st : List Bool × Bool} {d : LintError},
      d ∈ scanLines r ls idx st →
      ∃ s n c, d ∈ checkLine r s n c := by
  intro ls
  induction ls with
  | nil => intro idx st d h; exact absurd h (List.not_mem_nil d)
  | cons l rest ih =>
    intro idx st d h
    unfold scanLines at h
    split at h
    · exact ih h
    · rcases List.mem_append.mp h with h1 | h1
      · exact ⟨_, _, _, h1⟩
      · exact ih h1

theorem scanLines_no_maxlines {r : Rules} {ls : List (List Char)} {idx : Nat}
    {st : List Bool × Bool} {d : LintError} (h : d ∈ scanLines r ls idx st) :
    d.ruleId ≠ some "max-lines-per-function" := by
  intro hr
  obtain ⟨-, hk, -⟩ := mem_scanLines h
  rw [ruleKey_of_maxlines hr] at hk
  omega

theorem filter_maxlines_analyze (code : List Char) (r : Rules) :
    (analyzeDeluge code ⟨r⟩).filter (fun d => d.ruleId = some "max-lines-per-function")
      = maxLinesBlock (splitNl code).length r.maxLinesPerFunction := by
  unfold analyzeDeluge
  rw [List.filter_append]
  have h1 : (maxLinesBlock (splitNl code).length r.maxLinesPerFunction).filter
      (fun d => d.ruleId = some "max-lines-per-function")
      = maxLinesBlock (splitNl code).length r.maxLinesPerFunction := by
    rw [List.filter_eq_self]
    intro a ha
    obtain ⟨-, -, hr⟩ := mem_maxLinesBlock ha
    simp [hr]
  have h2 : (scanLines r (splitNl code) 0 ([], false)).filter
      (fun d => d.ruleId = some "max-lines-per-function") = [] := by
    rw [List.filter_eq_nil_iff]
    intro a ha
    simp [scanLines_no_maxlines ha]
  rw [h1, h2, List.append_nil]

/-- Claim C6: with `max-lines-per-function` configured as a number `n`, the
scan emits exactly one diagnostic carrying that rule id — attributed to line 1
and independent of how far the count exceeds `n` — precisely when the total
line count exceeds `n`, and none otherwise. -/
theorem claim_C6 (code : List Char) (r : Rules) (n : Int)
    (h : r.maxLinesPerFunction = some (MLVal.num n)) :
    (((splitNl code).length : Int) > n →
      (analyzeDeluge code ⟨r⟩).filter (fun d => d.ruleId = some "max-lines-per-function")
        = [⟨1, maxLinesMsg (splitNl code).length n, Sev.warning,
            some "max-lines-per-function"⟩]) ∧
    (¬ ((splitNl code).length : Int) > n →
      (analyzeDeluge code ⟨r⟩).filter
        (fun d => d.ruleId = some "max-lines-per-function") = []) := by
  rw [filter_maxlines_analyze, h]
  constructor <;> intro hgt <;> simp [maxLinesBlock, hgt]

/-- Rules configuring only `max-lines-per-function`, to the number 2. -/
def mlNum2Rules : Rules := { maxLinesPerFunction := some (MLVal.num 2) }

theorem claim_C6_witness :
    mlNum2Rules.maxLinesPerFunction = some (MLVal.num 2) ∧
    ((splitNl ("a;\nb;\nc;".data)).length : Int) > 2 ∧
    (analyzeDeluge ("a;\nb;\nc;".data) ⟨mlNum2Rules⟩).filter
        (fun d => d.ruleId = some "max-lines-per-function")
      = [⟨1, maxLinesMsg 3 2, Sev.warning, some "max-lines-per-function"⟩] :=
  ⟨rfl, by decide, (claim_C6 ("a;\nb;\nc;".data) mlNum2Rules 2 rfl).1 (by decide)⟩

/-- Claim C9: splitting on the newline character gives a text ending in a
newline one extra (empty) final line; so with the threshold `n` equal to the
line count of `t`, the text `t` followed by a terminating newline triggers
`max-lines-per-function` while `t` itself does not. -/
theorem claim_C9 (t : List Char) (r : Rules) (n : Int) :
    (splitNl (t ++ ['\n'])).length = (splitNl t).length + 1 ∧
    (r.maxLinesPerFunction = some (MLVal.num n) → ((splitNl t).length : Int) = n →
      ((analyzeDeluge (t ++ ['\n']) ⟨r⟩).filter
          (fun d => d.ruleId = some "max-lines-per-function") ≠ [] ∧
       (analyzeDeluge t ⟨r⟩).filter
          (fun d => d.ruleId = some "max-lines-per-function") = [])) := by
  have hsplit : (splitNl (t ++ ['\n'])).length = (splitNl t).length + 1 := by
    rw [splitNl_append_newline, List.length_append, List.length_singleton]
  refine ⟨hsplit, fun h hn => ⟨?_, ?_⟩⟩
  · rw [filter_maxlines_analyze, h, hsplit]
    simp only [maxLinesBlock]
    rw [if_pos (by push_cast; omega)]
    simp
  · rw [filter_maxlines_analyze, h]
    simp only [maxLinesBlock]
    rw [if_neg (by omega)]

theorem claim_C9_witness :
    (splitNl ("a;\nb;".data ++ ['\n'])).length = (splitNl ("a;\nb;".data)).length + 1 ∧
    mlNum2Rules.maxLinesPerFunction = some (MLVal.num 2) ∧
    ((splitNl ("a;\nb;".data)).length : Int) = 2 ∧
    (analyzeDeluge ("a;\nb;".data ++ ['\n']) ⟨mlNum2Rules⟩).filter
        (fun d => d.ruleId = some "max-lines-per-function") ≠ [] ∧
    (analyzeDeluge ("a;\nb;".data) ⟨mlNum2Rules⟩).filter
        (fun d => d.ruleId = some "max-lines-per-function") = [] :=
  ⟨(claim_C9 ("a;\nb;".data) mlNum2Rules 2).1, rfl, by decide,
    ((claim_C9 ("a;\nb;".data) mlNum2Rules 2).2 rfl (by decide)).1,
    ((claim_C9 ("a;\nb;".data) mlNum2Rules 2).2 rfl (by decide)).2⟩

/-- Claim C10: every diagnostic of `analyzeDeluge` that carries the
`max-lines-per-function` rule id has severity `warning`, for every input and
configuration; the rule alone can never contribute an error. -/
theorem claim_C10 (code : List Char) (cfg : DelugeConfig) (d : LintError)
    (hd : d ∈ analyzeDeluge code cfg)
    (hr : d.ruleId = some "max-lines-per-function") : d.type = Sev.warning := by
  unfold analyzeDeluge at hd
  rcases List.mem_append.mp hd with h1 | h1
  · exact (mem_maxLinesBlock h1).2.1
  · exact absurd hr (scanLines_no_maxlines h1)

/-- Rules configuring only `max-lines-per-function`, to the number 1. -/
def mlNum1Rules : Rules := { maxLinesPerFunction := some (MLVal.num 1) }

theorem claim_C10_witness :
    (⟨1, maxLinesMsg 2 1, Sev.warning, some "max-lines-per-function"⟩ : LintError) ∈
        analyzeDeluge ("a;\nb;".data) ⟨mlNum1Rules⟩ ∧
    (⟨1, maxLinesMsg 2 1, Sev.warning, some "max-lines-per-function"⟩ : LintError).type
      = Sev.warning :=
  ⟨by decide, claim_C10 ("a;\nb;".data) ⟨mlNum1Rules⟩ _ (by decide) rfl⟩

/-! ## Configuration defaulting and disabled rules -/

/-- The documented per-rule defaults filled in for absent keys: `warn` for
`no-hardcoded-ids`, `camelcase-vars`, `no-unused-maps` and
`enforce-timeout-awareness`, `error` for `require-semicolon`, and the string
`"off"` for `max-lines-per-function`. -/
def withDefaults (r : Rules) : Rules :=
  { noHardcodedIds := some (orDefault r.noHardcodedIds "warn")
    requireSemicolon := some (orDefault r.requireSemicolon "error")
    camelcaseVars := some (orDefault r.camelcaseVars "warn")
    maxLinesPerFunction := some (r.maxLinesPerFunction.getD (MLVal.str "off"))
    noUnusedMaps := some (orDefault r.noUnusedMaps "warn")
    enforceTimeoutAwareness := some (orDefault r.enforceTimeoutAwareness "warn") }

theorem orDefault_idem (v : Option String) (d : String) (hd : d ≠ "") :
    orDefault (some (orDefault v d)) d = orDefault v d := by
  cases v with
  | none => simp [orDefault, hd]
  | some s =>
    by_cases hs : s = "" <;> simp [orDefault, hs, hd]

theorem getHardcodedRule_withDefaults (r : Rules) :
    getHardcodedRule (withDefaults r) = getHardcodedRule r :=
  orDefault_idem r.noHardcodedIds "warn" (by decide)

theorem getSemicolonRule_withDefaults (r : Rules) :
    getSemicolonRule (withDefaults r) = getSemicolonRule r :=
  orDefault_idem r.requireSemicolon "error" (by decide)

theorem getCamelRule_withDefaults (r : Rules) :
    getCamelRule (withDefaults r) = getCamelRule r :=
  orDefault_idem r.camelcaseVars "warn" (by decide)

theorem getTimeoutRule_withDefaults (r : Rules) :
    getTimeoutRule (withDefaults r) = getTimeoutRule r :=
  orDefault_idem r.enforceTimeoutAwareness "warn" (by decide)

theorem maxLinesBlock_withDefaults (L : Nat) (r : Rules) :
    maxLinesBlock L (withDefaults r).maxLinesPerFunction
      = maxLinesBlock L r.maxLinesPerFunction := by
  cases h : r.maxLinesPerFunction with
  | none => simp [withDefaults, h, maxLinesBlock]
  | some v => simp [withDefaults, h]

theorem checkLine_congr {r1 r2 : Rules}
    (hh : getHardcodedRule r1 = getHardcodedRule r2)
    (hs : getSemicolonRule r1 = getSemicolonRule r2)
    (hc : getCamelRule r1 = getCamelRule r2)
    (ht : getTimeoutRule r1 = getTimeoutRule r2) :
    ∀ (s : List Bool) (n : Nat) (c : List Char),
      checkLine r1 s n c = checkLine r2 s n c := by
  intro s n c
  simp only [checkLine, hardcodedCheck, semicolonCheck, camelcaseCheck,
    timeoutCheck, hh, hs, hc, ht]

theorem scanLines_congr {r1 r2 : Rules}
    (hck : ∀ s n c, checkLine r1 s n c = checkLine r2 s n c) :
    ∀ (ls : List (List Char)) (idx : Nat) (st : List Bool × Bool),
      scanLines r1 ls idx st = scanLines r2 ls idx st := by
  intro ls
  induction ls with
  | nil => intro idx st; rfl
  | cons l rest ih =>
    intro idx st
    unfold scanLines
    split
    · exact ih _ _
    · rw [hck, ih]

theorem checkLine_off_hardcoded {r : Rules} {s : List Bool} {n : Nat}
    {c : List Char} {d : LintError} (hr : getHardcodedRule r = "off")
    (h : d ∈ checkLine r s n c) : d.ruleId ≠ some "no-hardcoded-ids" := by
  rcases mem_checkLine_cases h with h1 | h1 | h1 | h1
  · simp [hardcodedCheck, hr] at h1
  · obtain ⟨-, hid⟩ := mem_semicolonCheck h1
    simp [hid]
  · obtain ⟨-, hid⟩ := mem_camelcaseCheck h1
    simp [hid]
  · obtain ⟨-, hid⟩ := mem_timeoutCheck h1
    simp [hid]

theorem checkLine_off_semicolon {r : Rules} {s : List Bool} {n : Nat}
    {c : List Char} {d : LintError} (hr : getSemicolonRule r = "off")
    (h : d ∈ checkLine r s n c) : d.ruleId ≠ some "require-semicolon" := by
  rcases mem_checkLine_cases h with h1 | h1 | h1 | h1
  · obtain ⟨-, hid⟩ := mem_hardcodedCheck h1
    simp [hid]
  · simp [semicolonCheck, hr] at h1
  · obtain ⟨-, hid⟩ := mem_camelcaseCheck h1
    simp [hid]
  · obtain ⟨-, hid⟩ := mem_timeoutCheck h1
    simp [hid]

theorem checkLine_off_camelcase {r : Rules} {s : List Bool} {n : Nat}
    {c : List Char} {d : LintError} (hr : getCamelRule r = "off")
    (h : d ∈ checkLine r s n c) : d.ruleId ≠ some "camelcase-vars" := by
  rcases mem_checkLine_cases h with h1 | h1 | h1 | h1
  · obtain ⟨-, hid⟩ := mem_hardcodedCheck h1
    simp [hid]
  · obtain ⟨-, hid⟩ := mem_semicolonCheck h1
    simp [hid]
  · simp [camelcaseCheck, hr] at h1
  · obtain ⟨-, hid⟩ := mem_timeoutCheck h1
    simp [hid]

theorem checkLine_off_timeout {r : Rules} {s : List Bool} {n : Nat}
    {c : List Char} {d : LintError} (hr : getTimeoutRule r = "off")
    (h : d ∈ checkLine r s n c) : d.ruleId ≠ some "enforce-timeout-awareness" := by
  rcases mem_checkLine_cases h with h1 | h1 | h1 | h1
  · obtain ⟨-, hid⟩ := mem_hardcodedCheck h1
    simp [hid]
  · obtain ⟨-, hid⟩ := mem_semicolonCheck h1
    simp [hid]
  · obtain ⟨-, hid⟩ := mem_camelcaseCheck h1
    simp [hid]
  · simp [timeoutCheck, hr] at h1

theorem analyze_filter_off {code : List Char} {r : Rules} {rid : String}
    (hblock : rid ≠ "max-lines-per-function")
    (hscan : ∀ {s n c d}, d ∈ checkLine r s n c → d.ruleId ≠ some rid) :
    (analyzeDeluge code ⟨r⟩).filter (fun d => d.ruleId = some rid) = [] := by
  rw [List.filter_eq_nil_iff]
  intro a ha
  simp only [analyzeDeluge] at ha
  rcases List.mem_append.mp ha with h1 | h1
  · obtain ⟨-, -, hr⟩ := mem_maxLinesBlock h1
    simp only [hr, decide_eq_true_eq, Option.some_inj]
    exact fun he => hblock he.symm
  · obtain ⟨s, n, c, hc⟩ := mem_scanLines_cases h1
    simp [hscan hc]

/-- Claim C5: a rule configured `"off"` contributes no diagnostic carrying its
rule id (for `max-lines-per-function` the string `"off"` is simply not a
number, hence disabled); and an absent rule key behaves exactly as the
documented default value for that key, so filling in all defaults leaves the
result unchanged. -/
theorem claim_C5 (code : List Char) (r : Rules) :
    (r.noHardcodedIds = some "off" →
      (analyzeDeluge code ⟨r⟩).filter
        (fun d => d.ruleId = some "no-hardcoded-ids") = []) ∧
    (r.requireSemicolon = some "off" →
      (analyzeDeluge code ⟨r⟩).filter
        (fun d => d.ruleId = some "require-semicolon") = []) ∧
    (r.camelcaseVars = some "off" →
      (analyzeDeluge code ⟨r⟩).filter
        (fun d => d.ruleId = some "camelcase-vars") = []) ∧
    (r.enforceTimeoutAwareness = some "off" →
      (analyzeDeluge code ⟨r⟩).filter
        (fun d => d.ruleId = some "enforce-timeout-awareness") = []) ∧
    (r.maxLinesPerFunction = some (MLVal.str "off") →
      (analyzeDeluge code ⟨r⟩).filter
        (fun d => d.ruleId = some "max-lines-per-function") = []) ∧
    analyzeDeluge code ⟨withDefaults r⟩ = analyzeDeluge code ⟨r⟩ := by
  refine ⟨?_, ?_, ?_, ?_, ?_, ?_⟩
  · intro h
    have hg : getHardcodedRule r = "off" := by
      unfold getHardcodedRule
      rw [h]
      rfl
    exact analyze_filter_off (by decide) (fun hc => checkLine_off_hardcoded hg hc)
  · intro h
    have hg : getSemicolonRule r = "off" := by
      unfold getSemicolonRule
      rw [h]
      rfl
    exact analyze_filter_off (by decide) (fun hc => checkLine_off_semicolon hg hc)
  · intro h
    have hg : getCamelRule r = "off" := by
      unfold getCamelRule
      rw [h]
      rfl
    exact analyze_filter_off (by decide) (fun hc => checkLine_off_camelcase hg hc)
  · intro h
    have hg : getTimeoutRule r = "off" := by
      unfold getTimeoutRule
      rw [h]
      rfl
    exact analyze_filter_off (by decide) (fun hc => checkLine_off_timeout hg hc)
  · intro h
    rw [filter_maxlines_analyze, h]
    rfl
  · simp only [analyzeDeluge]
    rw [maxLinesBlock_withDefaults,
      scanLines_congr (checkLine_congr (getHardcodedRule_withDefaults r)
        (getSemicolonRule_withDefaults r) (getCamelRule_withDefaults r)
        (getTimeoutRule_withDefaults r))]

/-- Rules with every interpreted key configured `"off"`. -/
def offRules : Rules :=
  { noHardcodedIds := some "off"
    requireSemicolon := some "off"
    camelcaseVars := some "off"
    maxLinesPerFunction := some (MLVal.str "off")
    noUnusedMaps := some "off"
    enforceTimeoutAwareness := some "off" }

theorem claim_C5_witness :
    ((analyzeDeluge ("My_Var = 409779000012345679".data) ⟨offRules⟩).filter
        (fun d => d.ruleId = some "no-hardcoded-ids") = []) ∧
    ((analyzeDeluge ("My_Var = 409779000012345679".data) ⟨offRules⟩).filter
        (fun d => d.ruleId = some "require-semicolon") = []) ∧
    ((analyzeDeluge ("My_Var = 409779000012345679".data) ⟨offRules⟩).filter
        (fun d => d.ruleId = some "camelcase-vars") = []) ∧
    ((analyzeDeluge ("My_Var = 409779000012345679".data) ⟨offRules⟩).filter
        (fun d => d.ruleId = some "enforce-timeout-awareness") = []) ∧
    ((analyzeDeluge ("My_Var = 409779000012345679".data) ⟨offRules⟩).filter
        (fun d => d.ruleId = some "max-lines-per-function") = []) ∧
    analyzeDeluge ("My_Var = 409779000012345679".data) ⟨withDefaults offRules⟩
      = analyzeDeluge ("My_Var = 409779000012345679".data) ⟨offRules⟩ :=
  ⟨(claim_C5 _ offRules).1 rfl, (claim_C5 _ offRules).2.1 rfl,
    (claim_C5 _ offRules).2.2.1 rfl, (claim_C5 _ offRules).2.2.2.1 rfl,
    (claim_C5 _ offRules).2.2.2.2.1 rfl, (claim_C5 _ offRules).2.2.2.2.2⟩

/-- Replace the `max-lines-per-function` entry of a rule set. -/
def setMaxLines (r : Rules) (v : Option MLVal) : Rules :=
  { r with maxLinesPerFunction := v }

/-- Claim C8: a non-numeric `max-lines-per-function` value (any string, such
as `"100"` or `"off"`) disables the rule: no diagnostic with its rule id is
emitted and the scan behaves exactly as if the key were absent. -/
theorem claim_C8 (code : List Char) (r : Rules) (s : String)
    (h : r.maxLinesPerFunction = some (MLVal.str s)) :
    (analyzeDeluge code ⟨r⟩).filter
        (fun d => d.ruleId = some "max-lines-per-function") = [] ∧
    analyzeDeluge code ⟨r⟩ = analyzeDeluge code ⟨setMaxLines r none⟩ := by
  constructor
  · rw [filter_maxlines_analyze, h]
    rfl
  · simp only [analyzeDeluge]
    have h1 : maxLinesBlock (splitNl code).length r.maxLinesPerFunction = [] := by
      rw [h]
      rfl
    have h2 : maxLinesBlock (splitNl code).length
        (setMaxLines r none).maxLinesPerFunction = [] := rfl
    rw [h1, h2]
    simp only [List.nil_append]
    exact scanLines_congr (@checkLine_congr r (setMaxLines r none) rfl rfl rfl rfl) _ _ _

/-- Rules configuring only `max-lines-per-function`, to the string "100". -/
def mlStrRules : Rules := { maxLinesPerFunction := some (MLVal.str "100") }

theorem claim_C8_witness :
    mlStrRules.maxLinesPerFunction = some (MLVal.str "100") ∧
    (analyzeDeluge ("a;\nb;\nc;".data) ⟨mlStrRules⟩).filter
        (fun d => d.ruleId = some "max-lines-per-function") = [] ∧
    analyzeDeluge ("a;\nb;\nc;".data) ⟨mlStrRules⟩
      = analyzeDeluge ("a;\nb;\nc;".data) ⟨setMaxLines mlStrRules none⟩ :=
  ⟨rfl, (claim_C8 _ mlStrRules "100" rfl).1, (claim_C8 _ mlStrRules "100" rfl).2⟩

/-! ## The require-semicolon condition -/

theorem filter_semicolon_checkLine (r : Rules) (s : List Bool) (n : Nat) (c : List Char) :
    (checkLine r s n c).filter (fun d => d.ruleId = some "require-semicolon")
      = semicolonCheck r n (trimChars c) := by
  unfold checkLine
  rw [List.filter_append, List.filter_append, List.filter_append]
  have hA : (hardcodedCheck r n c).filter
      (fun d => d.ruleId = some "require-semicolon") = [] := by
    rw [List.filter_eq_nil_iff]
    intro a ha
    obtain ⟨-, hid⟩ := mem_hardcodedCheck ha
    simp [hid]
  have hB : (semicolonCheck r n (trimChars c)).filter
      (fun d => d.ruleId = some "require-semicolon")
      = semicolonCheck r n (trimChars c) := by
    rw [List.filter_eq_self]
    intro a ha
    obtain ⟨-, hid⟩ := mem_semicolonCheck ha
    simp [hid]
  have hC : (camelcaseCheck r n c).filter
      (fun d => d.ruleId = some "require-semicolon") = [] := by
    rw [List.filter_eq_nil_iff]
    intro a ha
    obtain ⟨-, hid⟩ := mem_camelcaseCheck ha
    simp [hid]
  have hD : (timeoutCheck r s n c).filter
      (fun d => d.ruleId = some "require-semicolon") = [] := by
    rw [List.filter_eq_nil_iff]
    intro a ha
    obtain ⟨-, hid⟩ := mem_timeoutCheck ha
    simp [hid]
  rw [hA, hB, hC, hD]
  simp

theorem semicolonCheck_ne_nil_iff (r : Rules) (n : Nat) (t : List Char) :
    semicolonCheck r n t ≠ [] ↔
      (getSemicolonRule r ≠ "off" ∧ trimChars (beforeDoubleSlash t) ≠ [] ∧
       (trimChars (beforeDoubleSlash t)).getLast? ≠ some ';' ∧
       (trimChars (beforeDoubleSlash t)).getLast? ≠ some openBrace ∧
       (trimChars (beforeDoubleSlash t)).getLast? ≠ some closeBrace ∧
       (trimChars (beforeDoubleSlash t)).getLast? ≠ some ':' ∧
       ¬ startsCtrlKeyword (trimChars (beforeDoubleSlash t))) := by
  simp only [semicolonCheck]
  split
  · next h => exact iff_of_true (by simp) h
  · next h => exact iff_of_false (by simp) h

/-- Claim C7: on any single non-comment line, a `require-semicolon`
diagnostic is emitted under the default configuration exactly when the
comment-stripped trimmed code part is nonempty, ends in none of `;`, `{`,
`}`, `:`, and does not start with a whole-word `if`, `else`, `for` or
`while`; in particular `info x` yields exactly one error-severity
`require-semicolon` diagnostic and `if (x > 1)` yields none. -/
theorem claim_C7 :
    (∀ content : List Char, '\n' ∉ content →
      isCommentLine (trimChars content) = false →
      ((analyzeDeluge content defaultConfig).filter
          (fun d => d.ruleId = some "require-semicolon") ≠ [] ↔
        (trimChars (beforeDoubleSlash (trimChars content)) ≠ [] ∧
         (trimChars (beforeDoubleSlash (trimChars content))).getLast? ≠ some ';' ∧
         (trimChars (beforeDoubleSlash (trimChars content))).getLast? ≠ some openBrace ∧
         (trimChars (beforeDoubleSlash (trimChars content))).getLast? ≠ some closeBrace ∧
         (trimChars (beforeDoubleSlash (trimChars content))).getLast? ≠ some ':' ∧
         ¬ startsCtrlKeyword (trimChars (beforeDoubleSlash (trimChars content)))))) ∧
    (analyzeDeluge ("info x".data) defaultConfig).map
        (fun d => (d.line, d.type, d.ruleId))
      = [(1, Sev.error, some "require-semicolon")] ∧
    analyzeDeluge ("if (x > 1)".data) defaultConfig = [] := by
  refine ⟨?_, by decide, by decide⟩
  intro content hnl hcm
  have hs := splitNl_no_newline content hnl
  simp only [analyzeDeluge, hs]
  rw [show maxLinesBlock [content].length defaultConfig.rules.maxLinesPerFunction
        = [] from rfl]
  simp only [scanLines, hcm, Bool.false_eq_true, if_false, List.nil_append,
    List.append_nil]
  rw [filter_semicolon_checkLine, semicolonCheck_ne_nil_iff]
  constructor
  · exact fun h => h.2
  · exact fun h => ⟨by decide, h⟩

theorem claim_C7_witness :
    trimChars (beforeDoubleSlash (trimChars ("info x".data))) ≠ [] ∧
    (trimChars (beforeDoubleSlash (trimChars ("info x".data)))).getLast? ≠ some ';' ∧
    (trimChars (beforeDoubleSlash (trimChars ("info x".data)))).getLast? ≠ some openBrace ∧
    (trimChars (beforeDoubleSlash (trimChars ("info x".data)))).getLast? ≠ some closeBrace ∧
    (trimChars (beforeDoubleSlash (trimChars ("info x".data)))).getLast? ≠ some ':' ∧
    ¬ startsCtrlKeyword (trimChars (beforeDoubleSlash (trimChars ("info x".data)))) :=
  (claim_C7.1 ("info x".data) (by decide) (by decide)).mp (by decide)
